import Mathlib

/-!
Verification of the connector-x dispatch/type-conversion engine and the
pandas datetime destination column against their natural-language
specification.

The embedding covers:
* `src/connector-agent-python/src/pandas/pandas_columns/datetime.rs` —
  `DateTimeBlock::split`, `DateTimeColumn::partition` and the two
  `PandasColumn::write` impls.  A numpy `ArrayViewMut` is modelled as an
  offset/length window (`DateTimeColumn`) into a flat backing buffer
  (`List Int`); `i64` values are modelled as `Int` (no arithmetic is
  performed on them, so no wrap-around modelling is needed).
* `src/connectorx/src/dispatcher.rs` — `Dispatcher::run`.  Sources,
  destinations and transports are records of the results the dispatcher
  observes; `run` is an executable function that returns the run's
  `Result` together with the ordered trace of trait calls it performed.
-/

namespace ConnectorX

/-! ## The pandas datetime destination column (datetime.rs) -/

/-- `i64::MIN`, the reserved null sentinel for `datetime64[ns]`. -/
def I64MIN : Int := -(2 ^ 63)

/-- A `chrono::DateTime<Utc>` value, represented by the value its
`timestamp_nanos()` accessor returns. -/
structure DateTimeUtc where
  nanos : Int
deriving DecidableEq

/-- `DateTime::timestamp_nanos` (chrono). -/
def timestampNanos (t : DateTimeUtc) : Int := t.nanos

/-- `DateTimeColumn<'a>`: a mutable 1-D view (`ArrayViewMut1<i64>`) into the
flat backing buffer, given by its offset into the buffer and its length.
`len` is also the value of `PandasColumnObject::len`. -/
structure DateTimeColumn where
  off : Nat
  len : Nat
deriving DecidableEq

/-- The buffer position a view index refers to belongs to the view. -/
def inView (c : DateTimeColumn) (n : Nat) : Prop :=
  c.off ≤ n ∧ n < c.off + c.len

/-- `impl PandasColumn<DateTime<Utc>> for DateTimeColumn`:
`self.data[i] = val.timestamp_nanos()`. -/
def DateTimeColumn.write (buf : List Int) (c : DateTimeColumn) (i : Nat)
    (val : DateTimeUtc) : List Int :=
  buf.set (c.off + i) (timestampNanos val)

/-- `impl PandasColumn<Option<DateTime<Utc>>> for DateTimeColumn`:
`self.data[i] = val.map(|t| t.timestamp_nanos()).unwrap_or(i64::MIN)`. -/
def DateTimeColumn.writeOpt (buf : List Int) (c : DateTimeColumn) (i : Nat)
    (val : Option DateTimeUtc) : List Int :=
  buf.set (c.off + i) ((val.map timestampNanos).getD I64MIN)

/-- `DateTimeBlock<'a>`: a 2-D `ArrayViewMut2<i64>` of shape
(`nrows` along Axis 0 = number of pandas columns, `ncols` along Axis 1 =
number of dataframe rows), C-contiguous over the flat buffer starting at
offset 0, so entry `(r, c)` lives at flat position `r * ncols + c`. -/
structure DateTimeBlock where
  nrows : Nat
  ncols : Nat
deriving DecidableEq

/-- The while-loop of `DateTimeBlock::split`: repeatedly `split_at(Axis(0), 1)`
and reshape the 1-row block to a 1-D view of length `w` (`view.ncols()`).
`off` is the flat offset of the current `view`, `k` its remaining Axis-0
extent. -/
def splitAux (off k w : Nat) : List DateTimeColumn :=
  match k with
  | 0 => []
  | k' + 1 => ⟨off, w⟩ :: splitAux (off + w) k' w

/-- `DateTimeBlock::split`. -/
def DateTimeBlock.split (b : DateTimeBlock) : List DateTimeColumn :=
  splitAux 0 b.nrows b.ncols

/-- The loop of `DateTimeColumn::partition`: `split_at(Axis(0), c)` for each
count `c`.  `ndarray::split_at` panics when `c` exceeds the view's length;
the panic is modelled as `none`. -/
def partitionAux (off len : Nat) : List Nat → Option (List DateTimeColumn)
  | [] => some []
  | c :: rest =>
    if c ≤ len then
      (partitionAux (off + c) (len - c) rest).map (fun ps => ⟨off, c⟩ :: ps)
    else
      none

/-- `DateTimeColumn::partition`. -/
def DateTimeColumn.partition (col : DateTimeColumn) (counts : List Nat) :
    Option (List DateTimeColumn) :=
  partitionAux col.off col.len counts

/-! ## The dispatcher (dispatcher.rs)

`Dispatcher::run` is generic over a `Source`, a `Destination` and a
`Transport`.  The trait objects are modelled as records of the results the
dispatcher observes through their methods; `run` returns the `Result` of
the run together with the ordered trace of the calls it made.  The `rayon`
parallel combinators (`par_iter_mut().try_for_each`, `into_par_iter()`)
are modelled sequentially in index order; all the properties proved below
are per-stage or per-partition and do not depend on cross-partition
interleaving. -/

/-- `DataOrder` (data_order.rs). -/
inductive DataOrder where
  | RowMajor
  | ColumnMajor
deriving DecidableEq

/-- The error kinds a run can surface.  `panic` models an actual Rust panic
(`zip_eq` on sequences of unequal length, indexing out of bounds). -/
inductive CXError where
  | dataOrderMismatch
  | unsupportedType
  | sourceFetch
  | destAlloc
  | destPartition
  | conversion
  | panic
deriving DecidableEq

/-- One observable call made by `Dispatcher::run`, in program order.

The receiver of each call is named after the *collection* the receiver
object came from (`src_partitions` / `dst_partitions`), not after the
binder name the closure gives it:
* `srcParser i` — `parser()` invoked on `src_partitions[i]`;
* `dstParser i` — `parser()` invoked on `dst_partitions[i]`;
* `srcFinalize i` / `dstFinalize i` — likewise for `finalize()`;
* `processCell i r c` — one invocation of the column conversion for
  partition pair `i`, row `r`, column `c`. -/
inductive Event where
  | fetchMetadata
  | srcPartitionCall
  | prepare (i : Nat)
  | allocate (totalRows : Nat)
  | dstPartitionCall (counts : List Nat)
  | srcParser (i : Nat)
  | dstParser (i : Nat)
  | processCell (i r c : Nat)
  | srcFinalize (i : Nat)
  | dstFinalize (i : Nat)
deriving DecidableEq

/-- The two mutually exclusive dispatch builds (`feature = "branch"` /
`feature = "fptr"`). -/
inductive Strategy where
  | branch
  | fptr
deriving DecidableEq

/-- Rust's `collect::<Result<Vec<_>>>()`: first error wins. -/
def collectExcept {α : Type} : List (Except CXError α) → Except CXError (List α)
  | [] => .ok []
  | x :: xs =>
    match x with
    | .error e => .error e
    | .ok a =>
      match collectExcept xs with
      | .error e => .error e
      | .ok rest => .ok (a :: rest)

/-- `zip_eq` (itertools / rayon): zips two sequences, panicking when their
lengths differ. -/
def zipEq {α β : Type} (xs : List α) (ys : List β) :
    Except CXError (List (α × β)) :=
  if xs.length = ys.length then .ok (xs.zip ys) else .error .panic

/-- Prefix a trace onto a (result, trace) pair. -/
def prependE {α : Type} (es : List Event) (r : Except CXError α × List Event) :
    Except CXError α × List Event :=
  (r.1, es ++ r.2)

/-- Modelled from the spec: `coordinate` lives in
`src/connectorx/src/data_order.rs`, which is not among the provided
sources.  Spec §4.2: scan the source's preference list in order and return
the first order the destination also supports; fail when there is no
mutually supported order. -/
def coordinate (so dods : List DataOrder) : Except CXError DataOrder :=
  match so.find? (fun o => dods.contains o) with
  | some o => .ok o
  | none => .error .dataOrderMismatch

/-- A source partition, as observed by the dispatcher: the result of
`prepare()`, the row/column counts reported after `prepare()`, the cursor
`parser()` yields (the per-pair mutable state `π` threaded through the
column conversions), and the result of `finalize()`. -/
structure SPartition (π : Type) where
  prepareRes : Except CXError Unit
  nrows : Nat
  ncols : Nat
  parserRes : Except CXError π
  finalizeRes : Except CXError Unit

/-- A destination partition, as observed by the dispatcher. -/
structure DPartition (π : Type) where
  nrows : Nat
  ncols : Nat
  parserRes : Except CXError π
  finalizeRes : Except CXError Unit

/-- A `Source`, as observed by the dispatcher: its declared data orders and
the results of `set_data_order`, `fetch_metadata`, `schema()`, `names()`
and `partition()`. -/
structure Source (σ π : Type) where
  dataOrders : List DataOrder
  setDataOrderRes : DataOrder → Except CXError Unit
  fetchMetadataRes : Except CXError Unit
  schema : List σ
  names : List String
  partitionRes : Except CXError (List (SPartition π))

/-- A `Destination`, as observed by the dispatcher. -/
structure Destination (δ π : Type) where
  dataOrders : List DataOrder
  allocateRes : Nat → List String → List δ → DataOrder → Except CXError Unit
  partitionRes : List Nat → Except CXError (List (DPartition π))

/-- Modelled from the spec: `Transport` implementations (macro-generated)
are not among the provided sources.  Spec §4.1: a transport supplies, for
every source type it can convert, the destination type it maps to and the
conversion function; `convert_typesystem`, `process` and `processor` all
read this one table. -/
structure Transport (σ δ π : Type) where
  route : σ → Option (δ × (π → Except CXError π))

/-- `Transport::convert_typesystem`. -/
def Transport.convertTypesystem {σ δ π : Type} (TP : Transport σ δ π)
    (s : σ) : Except CXError δ :=
  match TP.route s with
  | some r => .ok r.1
  | none => .error .unsupportedType

/-- `Transport::process` (the `branch` build's per-cell dispatch): switch on
the (source type, destination type) pair and run the matching conversion. -/
def Transport.process {σ δ π : Type} [DecidableEq δ] (TP : Transport σ δ π)
    (s : σ) (d : δ) (st : π) : Except CXError π :=
  match TP.route s with
  | some r => if r.1 = d then r.2 st else .error .unsupportedType
  | none => .error .unsupportedType

/-- `Transport::processor` (the `fptr` build): resolve the conversion
function for a (source type, destination type) pair once, before the
loop. -/
def Transport.processor {σ δ π : Type} [DecidableEq δ] (TP : Transport σ δ π)
    (s : σ) (d : δ) : Except CXError (π → Except CXError π) :=
  match TP.route s with
  | some r => if r.1 = d then .ok r.2 else .error .unsupportedType
  | none => .error .unsupportedType

section Dispatcher

variable {σ δ π : Type}

/-- Lines 63–65: `src_partitions.par_iter_mut().try_for_each(prepare)`,
with the partition index recorded in the trace. -/
def prepareAll : List (SPartition π) → Nat → Except CXError Unit × List Event
  | [], _ => (.ok (), [])
  | p :: rest, i =>
    match p.prepareRes with
    | .error e => (.error e, [Event.prepare i])
    | .ok _ => prependE [Event.prepare i] (prepareAll rest (i + 1))

/-- The (row, column) indices visited by the copy loop, in program order:
`RowMajor` iterates rows in the outer loop (lines 111–125), `ColumnMajor`
iterates columns in the outer loop (lines 126–140). -/
def cellIndices (dorder : DataOrder) (nr nc : Nat) : List (Nat × Nat) :=
  match dorder with
  | .RowMajor =>
    (List.range nr).flatMap (fun r => (List.range nc).map (fun c => (r, c)))
  | .ColumnMajor =>
    (List.range nc).flatMap (fun c => (List.range nr).map (fun r => (r, c)))

/-- The innermost statements of the copy loop: for each visited cell, invoke
the resolved column conversion on the threaded cursor state, short-circuiting
on the first error (`?`). -/
def copyCells (proc : Nat → π → Except CXError π) (i : Nat) :
    List (Nat × Nat) → π → Except CXError π × List Event
  | [], st => (.ok st, [])
  | rc :: rest, st =>
    prependE [Event.processCell i rc.1 rc.2]
      (match proc rc.2 st with
       | .error e => (.error e, [])
       | .ok st2 => copyCells proc i rest st2)

/-- The per-column conversion resolution.  `branch` (lines 87–92, 118–122,
133–137): the `(src_ty, dst_ty)` pairs are precomputed and `TP::process`
is dispatched on them at every cell.  `fptr` (lines 101–106, 115–116,
131–132): the conversion functions are resolved into a per-column vector
before the loop, failing the partition if any resolution fails.  Indexing
`schemas[col]` / `f[col]` out of bounds is a Rust panic.  (The Rust code
uses `zip_eq` on the two schema vectors; their lengths are always equal
because `dst_schema` is produced column-by-column from `src_schema`, so a
plain `zip` is used here.) -/
def resolveProc [DecidableEq δ] (TP : Transport σ δ π) (strat : Strategy)
    (srcSchema : List σ) (dstSchema : List δ) :
    Except CXError (Nat → π → Except CXError π) :=
  match strat with
  | .branch =>
    .ok (fun col st =>
      match (srcSchema.zip dstSchema).get? col with
      | some sd => TP.process sd.1 sd.2 st
      | none => .error .panic)
  | .fptr =>
    match collectExcept
        ((srcSchema.zip dstSchema).map (fun sd => TP.processor sd.1 sd.2)) with
    | .error e => .error e
    | .ok f =>
      .ok (fun col st =>
        match f.get? col with
        | some g => g st
        | none => .error .panic)

/-- The body of the `try_for_each` closure (lines 100–146).  The closure's
pattern is `|(i, (mut src, mut dst))|` while the zipped sequence is
`dst_partitions.zip_eq(src_partitions)`, so — exactly as in the code — the
binder named `src` holds `dst_partitions[i]` and the binder named `dst`
holds `src_partitions[i]`.  The parameters below keep the closure's binder
names and their actual types: `src : DPartition π`, `dst : SPartition π`.
Hence `dst.parser()?` (line 108) reads the *source* partition's parser,
the loop bounds `src.nrows()` / `src.ncols()` (lines 112–114, 129–130)
are the *destination* partition's counts, and `src.finalize()?` (line
144) finalizes the *destination* partition. -/
def copyPair [DecidableEq δ] (TP : Transport σ δ π) (strat : Strategy)
    (dorder : DataOrder) (srcSchema : List σ) (dstSchema : List δ) (i : Nat)
    (src : DPartition π) (dst : SPartition π) :
    Except CXError π × List Event :=
  match resolveProc TP strat srcSchema dstSchema with
  | .error e => (.error e, [])
  | .ok proc =>
    prependE [Event.srcParser i]
      (match dst.parserRes with
       | .error e => (.error e, [])
       | .ok p0 =>
         match copyCells proc i (cellIndices dorder src.nrows src.ncols) p0 with
         | (.error e, es) => (.error e, es)
         | (.ok pf, es) =>
           prependE es
             (prependE [Event.dstFinalize i]
               (match src.finalizeRes with
                | .error e => (.error e, [])
                | .ok _ => (.ok pf, []))))

/-- Lines 96–147: the zipped, enumerated copy loop over the partition
pairs, collecting each pair's final cursor state. -/
def copyLoop [DecidableEq δ] (TP : Transport σ δ π) (strat : Strategy)
    (dorder : DataOrder) (srcSchema : List σ) (dstSchema : List δ) :
    List (DPartition π × SPartition π) → Nat →
    Except CXError (List π) × List Event
  | [], _ => (.ok [], [])
  | pr :: rest, i =>
    match copyPair TP strat dorder srcSchema dstSchema i pr.1 pr.2 with
    | (.error e, es) => (.error e, es)
    | (.ok st, es) =>
      prependE es
        (match copyLoop TP strat dorder srcSchema dstSchema rest (i + 1) with
         | (.error e, es2) => (.error e, es2)
         | (.ok sts, es2) => (.ok (st :: sts), es2))

/-- Lines 68–147: sum the prepared row counts, `allocate`, create the
destination partitions, `zip_eq` them with the source partitions and run
the copy loop. -/
def runAllocate [DecidableEq δ] (S : Source σ π) (W : Destination δ π)
    (TP : Transport σ δ π) (strat : Strategy) (dorder : DataOrder)
    (dstSchema : List δ) (srcParts : List (SPartition π)) :
    Except CXError (List π) × List Event :=
  let numRows := srcParts.map (fun p => p.nrows)
  prependE [Event.allocate numRows.sum]
    (match W.allocateRes numRows.sum S.names dstSchema dorder with
     | .error e => (.error e, [])
     | .ok _ =>
       prependE [Event.dstPartitionCall numRows]
         (match W.partitionRes numRows with
          | .error e => (.error e, [])
          | .ok dstParts =>
            match zipEq dstParts srcParts with
            | .error e => (.error e, [])
            | .ok pairs => copyLoop TP strat dorder S.schema dstSchema pairs 0))

/-- `Dispatcher::run` (lines 46–152): negotiate the data order, push it and
the queries into the source, fetch metadata, convert the schema, create and
prepare the source partitions, allocate and partition the destination, and
run the copy loop.  Each `?` short-circuits with the stage's error. -/
def Dispatcher.run [DecidableEq δ] (S : Source σ π) (W : Destination δ π)
    (TP : Transport σ δ π) (strat : Strategy) :
    Except CXError (List π) × List Event :=
  match coordinate S.dataOrders W.dataOrders with
  | .error e => (.error e, [])
  | .ok dorder =>
    match S.setDataOrderRes dorder with
    | .error e => (.error e, [])
    | .ok _ =>
      prependE [Event.fetchMetadata]
        (match S.fetchMetadataRes with
         | .error e => (.error e, [])
         | .ok _ =>
           match collectExcept (S.schema.map TP.convertTypesystem) with
           | .error e => (.error e, [])
           | .ok dstSchema =>
             prependE [Event.srcPartitionCall]
               (match S.partitionRes with
                | .error e => (.error e, [])
                | .ok srcParts =>
                  match prepareAll srcParts 0 with
                  | (.error e, es) => (.error e, es)
                  | (.ok _, es) =>
                    prependE es
                      (runAllocate S W TP strat dorder dstSchema srcParts)))

end Dispatcher

/-! ## Concrete sources, destinations and transports used to evaluate the
dispatcher on closed inputs.  The cursor state is a write log
(`List Nat`): each processed cell appends its column's source type. -/

/-- A transport over `σ = δ = Nat` routing every source type `s` to
destination type `s`, whose conversion appends `s` to the write log. -/
def logTP : Transport Nat Nat (List Nat) :=
  ⟨fun s => some (s, fun st => .ok (st ++ [s]))⟩

/-- A transport with no routes: every `convert_typesystem` fails. -/
def noRouteTP : Transport Nat Nat (List Nat) :=
  ⟨fun _ => none⟩

/-- A source partition with `r` rows and `c` columns that prepares
successfully and yields an empty write log as its cursor.  Its
`finalize()` is poisoned: were the dispatcher to call `finalize()` on a
*source* partition, the run would abort with `sourceFetch`. -/
def sPart (r c : Nat) : SPartition (List Nat) :=
  { prepareRes := .ok ()
    nrows := r
    ncols := c
    parserRes := .ok []
    finalizeRes := .error .sourceFetch }

/-- A source partition whose `prepare()` fails. -/
def sPartBad (r c : Nat) : SPartition (List Nat) :=
  { prepareRes := .error .sourceFetch
    nrows := r
    ncols := c
    parserRes := .ok []
    finalizeRes := .error .sourceFetch }

/-- A destination partition with `r` rows and `c` columns.  Its `parser()`
is poisoned: were the dispatcher to call `parser()` on a *destination*
partition, the run would abort with `destPartition`. -/
def dPart (r c : Nat) : DPartition (List Nat) :=
  { nrows := r
    ncols := c
    parserRes := .error .destPartition
    finalizeRes := .ok () }

/-- A RowMajor source reporting the given schema and partitions. -/
def mkSource (sch : List Nat) (parts : List (SPartition (List Nat))) :
    Source Nat (List Nat) :=
  { dataOrders := [DataOrder.RowMajor]
    setDataOrderRes := fun _ => .ok ()
    fetchMetadataRes := .ok ()
    schema := sch
    names := sch.map (fun _ => "c")
    partitionRes := .ok parts }

/-- A RowMajor destination handing out the given partitions. -/
def mkDest (parts : List (DPartition (List Nat))) :
    Destination Nat (List Nat) :=
  { dataOrders := [DataOrder.RowMajor]
    allocateRes := fun _ _ _ _ => .ok ()
    partitionRes := fun _ => .ok parts }

/-! ### Facts about `splitAux` / `partitionAux` -/

theorem splitAux_get? (k : Nat) :
    ∀ (off w i : Nat),
      (splitAux off k w).get? i =
        if i < k then some ⟨off + i * w, w⟩ else none := by
  induction k with
  | zero => intro off w i; simp [splitAux]
  | succ k ih =>
    intro off w i
    cases i with
    | zero => simp [splitAux]
    | succ i =>
      simp only [splitAux, List.get?]
      rw [ih]
      by_cases h : i < k
      · simp only [if_pos h, if_pos (Nat.succ_lt_succ h)]
        congr 2
        ring
      · simp only [if_neg h, if_neg (fun hs => h (Nat.lt_of_succ_lt_succ hs))]

theorem splitAux_length (k : Nat) :
    ∀ (off w : Nat), (splitAux off k w).length = k := by
  induction k with
  | zero => intro off w; simp [splitAux]
  | succ k ih => intro off w; simp [splitAux, ih]

theorem partitionAux_isSome (counts : List Nat) :
    ∀ (off len : Nat),
      (partitionAux off len counts).isSome ↔
        ∀ k, k ≤ counts.length → (counts.take k).sum ≤ len := by
  induction counts with
  | nil =>
    intro off len
    simp only [partitionAux, Option.isSome_some, List.length_nil, true_iff]
    intro k hk
    have hk0 : k = 0 := Nat.le_zero.mp hk
    subst hk0
    simp
  | cons c rest ih =>
    intro off len
    by_cases hc : c ≤ len
    · simp only [partitionAux, if_pos hc, Option.isSome_map']
      rw [ih]
      constructor
      · intro h k hk
        cases k with
        | zero => simp
        | succ k =>
          have := h k (Nat.le_of_succ_le_succ hk)
          simp only [List.take_succ_cons, List.sum_cons]
          omega
      · intro h k hk
        have := h (k + 1) (Nat.succ_le_succ hk)
        simp only [List.take_succ_cons, List.sum_cons] at this
        omega
    · simp only [partitionAux, if_neg hc, Option.isSome_none,
        Bool.false_eq_true, false_iff]
      intro h
      have := h 1 (by simp)
      simp at this
      omega

theorem partitionAux_get? (counts : List Nat) :
    ∀ (off len : Nat) (parts : List DateTimeColumn),
      partitionAux off len counts = some parts →
      ∀ k, parts.get? k =
        match counts.get? k with
        | some c => some ⟨off + (counts.take k).sum, c⟩
        | none => none := by
  induction counts with
  | nil =>
    intro off len parts h k
    simp only [partitionAux, Option.some.injEq] at h
    subst h
    simp
  | cons c rest ih =>
    intro off len parts h k
    simp only [partitionAux] at h
    by_cases hc : c ≤ len
    · rw [if_pos hc] at h
      cases hrec : partitionAux (off + c) (len - c) rest with
      | none =>
        rw [hrec, Option.map_none'] at h
        exact Option.noConfusion h
      | some ps =>
        rw [hrec] at h
        simp only [Option.map_some', Option.some.injEq] at h
        subst h
        cases k with
        | zero => simp
        | succ k =>
          have := ih (off + c) (len - c) ps hrec k
          simp only [List.get?_cons_succ, List.get?] at this ⊢
          rw [this]
          cases rest.get? k with
          | none => simp
          | some c' =>
            simp only [List.take_succ_cons, List.sum_cons]
            congr 2
            omega
    · rw [if_neg hc] at h
      exact Option.noConfusion h

theorem partitionAux_span (counts : List Nat) :
    ∀ (off len : Nat) (parts : List DateTimeColumn),
      partitionAux off len counts = some parts →
      ∀ p ∈ parts, p.off + p.len ≤ off + counts.sum := by
  induction counts with
  | nil =>
    intro off len parts h p hp
    simp only [partitionAux, Option.some.injEq] at h
    subst h
    simp at hp
  | cons c rest ih =>
    intro off len parts h p hp
    simp only [partitionAux] at h
    by_cases hc : c ≤ len
    · rw [if_pos hc] at h
      cases hrec : partitionAux (off + c) (len - c) rest with
      | none =>
        rw [hrec, Option.map_none'] at h
        exact Option.noConfusion h
      | some ps =>
        rw [hrec] at h
        simp only [Option.map_some', Option.some.injEq] at h
        subst h
        rcases List.mem_cons.mp hp with hhead | htail
        · subst hhead
          simp only [List.sum_cons]
          omega
        · have := ih (off + c) (len - c) ps hrec p htail
          simp only [List.sum_cons]
          omega
    · rw [if_neg hc] at h
      exact Option.noConfusion h

theorem partitionAux_length (counts : List Nat) :
    ∀ (off len : Nat) (parts : List DateTimeColumn),
      partitionAux off len counts = some parts →
      parts.length = counts.length := by
  induction counts with
  | nil =>
    intro off len parts h
    simp only [partitionAux, Option.some.injEq] at h
    subst h; rfl
  | cons c rest ih =>
    intro off len parts h
    simp only [partitionAux] at h
    by_cases hc : c ≤ len
    · rw [if_pos hc] at h
      cases hrec : partitionAux (off + c) (len - c) rest with
      | none =>
        rw [hrec, Option.map_none'] at h
        exact Option.noConfusion h
      | some ps =>
        rw [hrec] at h
        simp only [Option.map_some', Option.some.injEq] at h
        subst h
        simp [ih (off + c) (len - c) ps hrec]
    · rw [if_neg hc] at h
      exact Option.noConfusion h


/-! ## Helper lemmas about the dispatcher's stages -/

/-- A `collect::<Result<Vec<_>>>()` over a map fails with the error of some
failing element whenever one exists. -/
theorem collectExcept_map_error {α β : Type} (f : α → Except CXError β) :
    ∀ ss : List α, (∃ s ∈ ss, ∃ e, f s = .error e) →
      ∃ e', (∃ s ∈ ss, f s = .error e') ∧
        collectExcept (ss.map f) = .error e' := by
  intro ss
  induction ss with
  | nil =>
    rintro ⟨s, hs, _⟩
    exact absurd hs (List.not_mem_nil s)
  | cons a rest ih =>
    rintro ⟨s, hs, e, he⟩
    cases hfa : f a with
    | error e0 =>
      exact ⟨e0, ⟨a, List.mem_cons_self a rest, hfa⟩,
        by simp [collectExcept, hfa]⟩
    | ok b =>
      have hmem : s ∈ rest := by
        rcases List.mem_cons.mp hs with rfl | hmem
        · rw [hfa] at he; exact Except.noConfusion he
        · exact hmem
      rcases ih ⟨s, hmem, e, he⟩ with ⟨e', ⟨s', hs', he'⟩, hc⟩
      exact ⟨e', ⟨s', List.mem_cons_of_mem _ hs', he'⟩,
        by simp [collectExcept, hfa, hc]⟩

/-- If some partition's `prepare()` fails, the prepare stage fails with the
error of some failing partition, and its trace holds `prepare` events
only. -/
theorem prepareAll_error {π : Type} :
    ∀ (l : List (SPartition π)) (i : Nat),
      (∃ p ∈ l, ∃ e, p.prepareRes = .error e) →
      ∃ e' es, (∃ p ∈ l, p.prepareRes = .error e') ∧
        prepareAll l i = (.error e', es) ∧
        ∀ ev ∈ es, ∃ j, ev = Event.prepare j := by
  intro l
  induction l with
  | nil =>
    rintro i ⟨p, hp, _⟩
    exact absurd hp (List.not_mem_nil p)
  | cons a rest ih =>
    rintro i ⟨p, hp, e, he⟩
    cases ha : a.prepareRes with
    | error e0 =>
      refine ⟨e0, [Event.prepare i], ⟨a, List.mem_cons_self a rest, ha⟩,
        by simp [prepareAll, ha], ?_⟩
      intro ev hev
      rcases List.mem_cons.mp hev with rfl | hev
      · exact ⟨i, rfl⟩
      · exact absurd hev (List.not_mem_nil ev)
    | ok u =>
      have hmem : p ∈ rest := by
        rcases List.mem_cons.mp hp with rfl | hmem
        · rw [ha] at he; exact Except.noConfusion he
        · exact hmem
      rcases ih (i + 1) ⟨p, hmem, e, he⟩ with ⟨e', es, ⟨p', hp', he'⟩, heq, hall⟩
      refine ⟨e', Event.prepare i :: es,
        ⟨p', List.mem_cons_of_mem _ hp', he'⟩,
        by simp [prepareAll, ha, prependE, heq], ?_⟩
      intro ev hev
      rcases List.mem_cons.mp hev with rfl | hm
      · exact ⟨i, rfl⟩
      · exact hall ev hm

/-- Positionality of `zip`: the `i`-th pair is the pair of `i`-th
elements. -/
theorem zip_get?_of_get? {α β : Type} :
    ∀ (A : List α) (B : List β) (i : Nat) (a : α) (b : β),
      A.get? i = some a → B.get? i = some b →
      (A.zip B).get? i = some (a, b) := by
  intro A
  induction A with
  | nil =>
    intro B i a b hA _
    cases i <;> exact Option.noConfusion hA
  | cons a' A ih =>
    intro B i a b hA hB
    cases B with
    | nil => cases i <;> exact Option.noConfusion hB
    | cons b' B =>
      cases i with
      | zero =>
        cases hA
        cases hB
        rfl
      | succ i =>
        exact ih B i a b hA hB

/-- When `convert_typesystem` maps `s` to `d`, the transport's route table
holds a conversion for `(s, d)`. -/
theorem convert_route {σ δ π : Type} (TP : Transport σ δ π) (s : σ) (d : δ)
    (h : TP.convertTypesystem s = .ok d) : ∃ f, TP.route s = some (d, f) := by
  cases hr : TP.route s with
  | none =>
    rw [Transport.convertTypesystem, hr] at h
    exact Except.noConfusion h
  | some r =>
    rw [Transport.convertTypesystem, hr] at h
    injection h with h1
    exact ⟨r.2, by rw [← h1]⟩

/-- Under a successfully converted schema, resolving all the per-column
conversion functions (`fptr`) succeeds and yields, column by column, the
function the `branch` build dispatches to. -/
theorem collect_processor_eq {σ δ π : Type} [DecidableEq δ]
    (TP : Transport σ δ π) :
    ∀ (ss : List σ) (ds : List δ),
      collectExcept (ss.map TP.convertTypesystem) = .ok ds →
      collectExcept ((ss.zip ds).map (fun sd => TP.processor sd.1 sd.2)) =
        .ok ((ss.zip ds).map (fun sd => fun st => TP.process sd.1 sd.2 st)) := by
  intro ss
  induction ss with
  | nil =>
    intro ds h
    simp only [List.map_nil, collectExcept, Option.some.injEq] at h
    injection h with h1
    subst h1
    rfl
  | cons s ss ih =>
    intro ds h
    simp only [List.map_cons, collectExcept] at h
    cases hcv : TP.convertTypesystem s with
    | error e => rw [hcv] at h; exact Except.noConfusion h
    | ok d =>
      rw [hcv] at h
      cases hrec : collectExcept (ss.map TP.convertTypesystem) with
      | error e => rw [hrec] at h; exact Except.noConfusion h
      | ok ds' =>
        rw [hrec] at h
        injection h with h1
        subst h1
        rcases convert_route TP s d hcv with ⟨f, hr⟩
        have hproc : TP.processor s d = .ok f := by
          simp [Transport.processor, hr]
        have hpf : (fun st => TP.process s d st) = f := by
          funext st
          simp [Transport.process, hr]
        show collectExcept (TP.processor s d ::
            (ss.zip ds').map (fun sd => TP.processor sd.1 sd.2)) =
          .ok ((fun st => TP.process s d st) ::
            (ss.zip ds').map (fun sd => fun st => TP.process sd.1 sd.2 st))
        rw [hpf]
        simp only [collectExcept, hproc, ih ds' hrec]

/-- Under a successfully converted schema the two dispatch strategies
resolve to the same per-column conversion. -/
theorem resolveProc_strat_eq {σ δ π : Type} [DecidableEq δ]
    (TP : Transport σ δ π) (ss : List σ) (ds : List δ)
    (hconv : collectExcept (ss.map TP.convertTypesystem) = .ok ds) :
    resolveProc TP Strategy.fptr ss ds = resolveProc TP Strategy.branch ss ds := by
  simp only [resolveProc, collect_processor_eq TP ss ds hconv]
  congr 1
  funext col st
  rw [List.get?_map]
  cases hg : (ss.zip ds).get? col with
  | none => rfl
  | some sd => rfl

/-- A partition pair is copied identically by the two strategies. -/
theorem copyPair_strat_eq {σ δ π : Type} [DecidableEq δ]
    (TP : Transport σ δ π) (dorder : DataOrder) (ss : List σ) (ds : List δ)
    (hconv : collectExcept (ss.map TP.convertTypesystem) = .ok ds) :
    ∀ (i : Nat) (src : DPartition π) (dst : SPartition π),
      copyPair TP Strategy.fptr dorder ss ds i src dst =
        copyPair TP Strategy.branch dorder ss ds i src dst := by
  intro i src dst
  unfold copyPair
  rw [resolveProc_strat_eq TP ss ds hconv]

/-- The whole copy loop is strategy-independent. -/
theorem copyLoop_strat_eq {σ δ π : Type} [DecidableEq δ]
    (TP : Transport σ δ π) (dorder : DataOrder) (ss : List σ) (ds : List δ)
    (hconv : collectExcept (ss.map TP.convertTypesystem) = .ok ds) :
    ∀ (pairs : List (DPartition π × SPartition π)) (i : Nat),
      copyLoop TP Strategy.fptr dorder ss ds pairs i =
        copyLoop TP Strategy.branch dorder ss ds pairs i := by
  intro pairs
  induction pairs with
  | nil => intro i; rfl
  | cons pr rest ih =>
    intro i
    simp only [copyLoop, copyPair_strat_eq TP dorder ss ds hconv, ih]

/-- The allocate-and-copy stage is strategy-independent. -/
theorem runAllocate_strat_eq {σ δ π : Type} [DecidableEq δ]
    (S : Source σ π) (W : Destination δ π) (TP : Transport σ δ π)
    (dorder : DataOrder) (ds : List δ) (srcParts : List (SPartition π))
    (hconv : collectExcept (S.schema.map TP.convertTypesystem) = .ok ds) :
    runAllocate S W TP Strategy.fptr dorder ds srcParts =
      runAllocate S W TP Strategy.branch dorder ds srcParts := by
  simp only [runAllocate, copyLoop_strat_eq TP dorder S.schema ds hconv]

/-! ## Claims C1–C3: what the copy loop actually does at concrete inputs -/

/-- Claim C1.  The claim states that the copy loop's row/column bounds are
taken from the source partition's `nrows()`/`ncols()`, never from the
destination partition's.  Evaluating `Dispatcher::run` on a source
partition reporting 1×1 paired with a destination partition reporting 2×1
refutes this: the loop visits two cells — the `for` bounds read
`src.nrows()`/`src.ncols()` where the binder `src` holds the
`dst_partitions` element (the closure pattern at line 100 is
`(mut src, mut dst)` while the zip at lines 96–98 is
`dst_partitions.zip_eq(src_partitions)`). -/
theorem C1_bounds_come_from_destination_partition :
    Dispatcher.run (mkSource [0] [sPart 1 1]) (mkDest [dPart 2 1]) logTP
        Strategy.branch =
      (.ok [[0, 0]],
       [Event.fetchMetadata, Event.srcPartitionCall, Event.prepare 0,
        Event.allocate 1, Event.dstPartitionCall [1], Event.srcParser 0,
        Event.processCell 0 0 0, Event.processCell 0 1 0,
        Event.dstFinalize 0]) ∧
    Event.processCell 0 1 0 ∈
      (Dispatcher.run (mkSource [0] [sPart 1 1]) (mkDest [dPart 2 1]) logTP
          Strategy.branch).2 :=
  ⟨rfl, by decide⟩

/-- Claim C2.  The claim states that the write cursor is obtained by calling
`parser()` on the destination partition.  Evaluating `Dispatcher::run` on a
2×2 grid refutes the receiver: the cursor comes from `dst.parser()` where
the binder `dst` holds the `src_partitions` element, so the trace records
`srcParser 0` and never a `dstParser` call (the destination partition's
`parser()` is poisoned, yet the run succeeds).  The per-cell order itself
is as claimed: RowMajor visits rows in the outer loop, columns in the
inner loop, one conversion per cell. -/
theorem C2_cursor_obtained_from_source_partition :
    Dispatcher.run (mkSource [0, 1] [sPart 2 2]) (mkDest [dPart 2 2]) logTP
        Strategy.branch =
      (.ok [[0, 1, 0, 1]],
       [Event.fetchMetadata, Event.srcPartitionCall, Event.prepare 0,
        Event.allocate 2, Event.dstPartitionCall [2], Event.srcParser 0,
        Event.processCell 0 0 0, Event.processCell 0 0 1,
        Event.processCell 0 1 0, Event.processCell 0 1 1,
        Event.dstFinalize 0]) ∧
    Event.srcParser 0 ∈
      (Dispatcher.run (mkSource [0, 1] [sPart 2 2]) (mkDest [dPart 2 2]) logTP
          Strategy.branch).2 ∧
    Event.dstParser 0 ∉
      (Dispatcher.run (mkSource [0, 1] [sPart 2 2]) (mkDest [dPart 2 2]) logTP
          Strategy.branch).2 :=
  ⟨rfl, by decide, by decide⟩

/-- Claim C3.  The claim states that, after all cells of a partition are
copied, the copy loop calls the *source* partition's `finalize()`, exactly
once per source partition.  Evaluating `Dispatcher::run` on two partition
pairs refutes the receiver: `src.finalize()` at line 144 is invoked on the
binder `src`, which holds the `dst_partitions` element, so the trace shows
one `dstFinalize` per pair (after that pair's cells) and no `srcFinalize`
at all — although every source partition's `finalize()` is poisoned, the
run succeeds. -/
theorem C3_finalize_called_on_destination_partition :
    Dispatcher.run (mkSource [0] [sPart 1 1, sPart 2 1])
        (mkDest [dPart 1 1, dPart 2 1]) logTP Strategy.branch =
      (.ok [[0], [0, 0]],
       [Event.fetchMetadata, Event.srcPartitionCall, Event.prepare 0,
        Event.prepare 1, Event.allocate 3, Event.dstPartitionCall [1, 2],
        Event.srcParser 0, Event.processCell 0 0 0, Event.dstFinalize 0,
        Event.srcParser 1, Event.processCell 1 0 0, Event.processCell 1 1 0,
        Event.dstFinalize 1]) ∧
    Event.srcFinalize 0 ∉
      (Dispatcher.run (mkSource [0] [sPart 1 1, sPart 2 1])
          (mkDest [dPart 1 1, dPart 2 1]) logTP Strategy.branch).2 ∧
    Event.srcFinalize 1 ∉
      (Dispatcher.run (mkSource [0] [sPart 1 1, sPart 2 1])
          (mkDest [dPart 1 1, dPart 2 1]) logTP Strategy.branch).2 :=
  ⟨rfl, by decide, by decide⟩

/-! ## Claims C7–C10: the datetime destination column -/

/-- Claim C7: for the timestamp destination column, `write(i, None)` stores
`i64::MIN` as the null sentinel, `write(i, Some(t))` stores
`t.timestamp_nanos()`, and writing a real value whose nanosecond timestamp
equals `i64::MIN` is indistinguishable from writing null. -/
theorem C7_null_sentinel (buf : List Int) (c : DateTimeColumn) (i : Nat)
    (t : DateTimeUtc) :
    DateTimeColumn.writeOpt buf c i none = buf.set (c.off + i) I64MIN ∧
    DateTimeColumn.writeOpt buf c i (some t) =
      buf.set (c.off + i) (timestampNanos t) ∧
    (timestampNanos t = I64MIN →
      DateTimeColumn.writeOpt buf c i (some t) =
        DateTimeColumn.writeOpt buf c i none) := by
  refine ⟨rfl, rfl, fun h => ?_⟩
  simp [DateTimeColumn.writeOpt, h]

/-- Witness for C7 at `t` = the instant with nanosecond timestamp
`i64::MIN` (1677-09-21T00:12:43.145224192Z). -/
theorem C7_null_sentinel_witness :
    DateTimeColumn.writeOpt [(0 : Int)] ⟨0, 1⟩ 0 (some ⟨I64MIN⟩) =
      DateTimeColumn.writeOpt [(0 : Int)] ⟨0, 1⟩ 0 none ∧
    DateTimeColumn.writeOpt [(0 : Int)] ⟨0, 1⟩ 0 none = [I64MIN] :=
  ⟨(C7_null_sentinel [(0 : Int)] ⟨0, 1⟩ 0 ⟨I64MIN⟩).2.2 rfl,
   (C7_null_sentinel [(0 : Int)] ⟨0, 1⟩ 0 ⟨I64MIN⟩).1⟩

/-- Claim C9: `write(i, v)` modifies only element `i` of the column's view:
for both `write` impls, every view index `j ≠ i` (equivalently, buffer
position `c.off + j`) keeps its previous value. -/
theorem C9_write_frame (buf : List Int) (c : DateTimeColumn) (i j : Nat)
    (v : Option DateTimeUtc) (t : DateTimeUtc)
    (hi : i < c.len) (hj : j < c.len) (hne : j ≠ i) :
    (DateTimeColumn.writeOpt buf c i v)[c.off + j]? = buf[c.off + j]? ∧
    (DateTimeColumn.write buf c i t)[c.off + j]? = buf[c.off + j]? := by
  have hidx : c.off + i ≠ c.off + j := by omega
  exact ⟨List.getElem?_set_ne hidx, List.getElem?_set_ne hidx⟩

/-- Witness for C9: writing null at index 0 of a 2-element column leaves
index 1 unchanged. -/
theorem C9_write_frame_witness :
    (DateTimeColumn.writeOpt [(5 : Int), 6] ⟨0, 2⟩ 0 none)[(0 : Nat) + 1]? =
      [(5 : Int), 6][(0 : Nat) + 1]? ∧
    (DateTimeColumn.write [(5 : Int), 6] ⟨0, 2⟩ 0 ⟨7⟩)[(0 : Nat) + 1]? =
      [(5 : Int), 6][(0 : Nat) + 1]? :=
  C9_write_frame [(5 : Int), 6] ⟨0, 2⟩ 0 1 none ⟨7⟩ (by decide) (by decide)
    (by decide)

/-- Claim C8: for a `DateTimeBlock` over a (columns × rows) 2-D buffer,
`split()` yields exactly one 1-D view per column (Axis-0 extent), each of
length `rows` (Axis-1 extent), the views pairwise disjoint; and for a
column of length 20, `partition([10, 7, 3])` yields three partitions of
lengths 10, 7 and 3, tiling the column contiguously in order with zero
overlap. -/
theorem C8_split_disjoint_partition_tiling (b : DateTimeBlock) :
    (DateTimeBlock.split b).length = b.nrows ∧
    (∀ c ∈ DateTimeBlock.split b, c.len = b.ncols) ∧
    (∀ i j ci cj, i ≠ j →
      (DateTimeBlock.split b).get? i = some ci →
      (DateTimeBlock.split b).get? j = some cj →
      ∀ n, ¬(inView ci n ∧ inView cj n)) ∧
    (∀ off : Nat,
      DateTimeColumn.partition ⟨off, 20⟩ [10, 7, 3] =
        some [⟨off, 10⟩, ⟨off + 10, 7⟩, ⟨off + 17, 3⟩]) := by
  refine ⟨splitAux_length b.nrows 0 b.ncols, ?_, ?_, ?_⟩
  · intro c hc
    rcases List.mem_iff_getElem?.mp hc with ⟨n, hn⟩
    rw [← List.get?_eq_getElem?, DateTimeBlock.split, splitAux_get?] at hn
    by_cases h : n < b.nrows
    · rw [if_pos h] at hn
      cases hn
      rfl
    · rw [if_neg h] at hn
      exact Option.noConfusion hn
  · intro i j ci cj hij hi hj n hn
    rw [DateTimeBlock.split, splitAux_get?] at hi hj
    by_cases hik : i < b.nrows
    · by_cases hjk : j < b.nrows
      · rw [if_pos hik] at hi
        rw [if_pos hjk] at hj
        cases hi
        cases hj
        rcases hn with ⟨⟨h1, h2⟩, ⟨h3, h4⟩⟩
        simp only [Nat.zero_add] at h1 h2 h3 h4
        rcases Nat.lt_or_ge i j with hlt | hge
        · have hm : (i + 1) * b.ncols ≤ j * b.ncols :=
            Nat.mul_le_mul_right _ hlt
          have he : (i + 1) * b.ncols = i * b.ncols + b.ncols := by ring
          omega
        · have hlt : j < i := Nat.lt_of_le_of_ne hge (fun h => hij h.symm)
          have hm : (j + 1) * b.ncols ≤ i * b.ncols :=
            Nat.mul_le_mul_right _ hlt
          have he : (j + 1) * b.ncols = j * b.ncols + b.ncols := by ring
          omega
      · rw [if_neg hjk] at hj
        exact Option.noConfusion hj
    · rw [if_neg hik] at hi
      exact Option.noConfusion hi
  · intro off
    show partitionAux off 20 [10, 7, 3] = _
    simp only [partitionAux]
    norm_num

/-- Witness for C8 on the concrete block 2 columns × 3 rows: the split's
first and second views are disjoint at buffer position 4. -/
theorem C8_split_disjoint_partition_tiling_witness :
    (DateTimeBlock.split ⟨2, 3⟩).length = 2 ∧
    ¬(inView ⟨0, 3⟩ 4 ∧ inView ⟨3, 3⟩ 4) ∧
    DateTimeColumn.partition ⟨0, 20⟩ [10, 7, 3] =
      some [⟨0, 10⟩, ⟨10, 7⟩, ⟨17, 3⟩] :=
  ⟨(C8_split_disjoint_partition_tiling ⟨2, 3⟩).1,
   (C8_split_disjoint_partition_tiling ⟨2, 3⟩).2.2.1 0 1 ⟨0, 3⟩ ⟨3, 3⟩
     (by decide) rfl rfl 4,
   (C8_split_disjoint_partition_tiling ⟨2, 3⟩).2.2.2 0⟩

/-- Claim C10: `DateTimeColumn::partition(counts)` succeeds exactly when
every prefix sum of `counts` is at most the column length (otherwise the
underlying `split_at` panics); on success it returns `counts.len()`
partitions that are consecutive prefixes of the column, and when the sum
of `counts` is strictly below the column length, the trailing positions of
the column belong to no returned partition. -/
theorem C10_partition_totality (col : DateTimeColumn) (counts : List Nat) :
    ((DateTimeColumn.partition col counts).isSome ↔
      ∀ k, k ≤ counts.length → (counts.take k).sum ≤ col.len) ∧
    (∀ parts, DateTimeColumn.partition col counts = some parts →
      parts.length = counts.length ∧
      (∀ k, parts.get? k =
        match counts.get? k with
        | some c => some ⟨col.off + (counts.take k).sum, c⟩
        | none => none) ∧
      (∀ p ∈ parts, ∀ n, inView p n → n < col.off + counts.sum)) := by
  refine ⟨partitionAux_isSome counts col.off col.len, ?_⟩
  intro parts h
  refine ⟨partitionAux_length counts col.off col.len parts h,
    partitionAux_get? counts col.off col.len parts h, ?_⟩
  intro p hp n hn
  have := partitionAux_span counts col.off col.len parts h p hp
  rcases hn with ⟨h1, h2⟩
  omega

/-- Witness for C10 on a column of length 5 with counts `[2, 2]` (sum 4 <
5): the call succeeds, returns prefixes `⟨0,2⟩`, `⟨2,2⟩`, and position 4
belongs to no returned partition. -/
theorem C10_partition_totality_witness :
    (DateTimeColumn.partition ⟨0, 5⟩ [2, 2]).isSome ∧
    ([(⟨0, 2⟩ : DateTimeColumn), ⟨2, 2⟩].length = ([2, 2] : List Nat).length) ∧
    ¬inView ⟨2, 2⟩ 4 :=
  ⟨((C10_partition_totality ⟨0, 5⟩ [2, 2]).1).mpr (by decide),
   ((C10_partition_totality ⟨0, 5⟩ [2, 2]).2 [⟨0, 2⟩, ⟨2, 2⟩] rfl).1,
   fun hv =>
     absurd (((C10_partition_totality ⟨0, 5⟩ [2, 2]).2 [⟨0, 2⟩, ⟨2, 2⟩]
       rfl).2.2 ⟨2, 2⟩ (by simp) 4 hv) (by decide)⟩

/-! ## Claims C4–C6: staging, pairing, strategy equivalence -/

/-- Claim C4: `run()` is fail-fast stage by stage.  (1) If
`convert_typesystem` fails for some schema column, `run()` returns that
conversion error and `Source::partition()` is never called (and no cell is
ever processed).  (2) If some source partition's `prepare()` fails,
`run()` returns that error and `Destination::allocate()`,
`Destination::partition()` and every `parser()` call never happen. -/
theorem C4_fail_fast :
    (∀ (σ δ π : Type) [DecidableEq δ] (S : Source σ π) (W : Destination δ π)
        (TP : Transport σ δ π) (strat : Strategy) (dorder : DataOrder),
      coordinate S.dataOrders W.dataOrders = .ok dorder →
      S.setDataOrderRes dorder = .ok () →
      S.fetchMetadataRes = .ok () →
      (∃ s ∈ S.schema, ∃ e, TP.convertTypesystem s = .error e) →
      ∃ e', (∃ s ∈ S.schema, TP.convertTypesystem s = .error e') ∧
        Dispatcher.run S W TP strat = (.error e', [Event.fetchMetadata]) ∧
        Event.srcPartitionCall ∉ (Dispatcher.run S W TP strat).2 ∧
        (∀ i r c, Event.processCell i r c ∉ (Dispatcher.run S W TP strat).2)) ∧
    (∀ (σ δ π : Type) [DecidableEq δ] (S : Source σ π) (W : Destination δ π)
        (TP : Transport σ δ π) (strat : Strategy) (dorder : DataOrder)
        (dstSchema : List δ) (srcParts : List (SPartition π)),
      coordinate S.dataOrders W.dataOrders = .ok dorder →
      S.setDataOrderRes dorder = .ok () →
      S.fetchMetadataRes = .ok () →
      collectExcept (S.schema.map TP.convertTypesystem) = .ok dstSchema →
      S.partitionRes = .ok srcParts →
      (∃ p ∈ srcParts, ∃ e, p.prepareRes = .error e) →
      ∃ e', (∃ p ∈ srcParts, p.prepareRes = .error e') ∧
        (Dispatcher.run S W TP strat).1 = .error e' ∧
        (∀ n, Event.allocate n ∉ (Dispatcher.run S W TP strat).2) ∧
        (∀ cnts, Event.dstPartitionCall cnts ∉ (Dispatcher.run S W TP strat).2) ∧
        (∀ i, Event.srcParser i ∉ (Dispatcher.run S W TP strat).2) ∧
        (∀ i, Event.dstParser i ∉ (Dispatcher.run S W TP strat).2)) := by
  constructor
  · intro σ δ π inst S W TP strat dorder hc hs hf hex
    rcases collectExcept_map_error TP.convertTypesystem S.schema hex with
      ⟨e', hex', hcol⟩
    have hrun : Dispatcher.run S W TP strat = (.error e', [Event.fetchMetadata]) := by
      simp [Dispatcher.run, hc, hs, hf, hcol, prependE]
    refine ⟨e', hex', hrun, ?_, ?_⟩
    · rw [hrun]
      intro hmem
      rcases List.mem_cons.mp hmem with h | h
      · exact Event.noConfusion h
      · exact absurd h (List.not_mem_nil _)
    · intro i r c
      rw [hrun]
      intro hmem
      rcases List.mem_cons.mp hmem with h | h
      · exact Event.noConfusion h
      · exact absurd h (List.not_mem_nil _)
  · intro σ δ π inst S W TP strat dorder dstSchema srcParts hc hs hf hconv
      hpart hex
    rcases prepareAll_error srcParts 0 hex with ⟨e', es, hex', heq, hall⟩
    have hrun : Dispatcher.run S W TP strat =
        (.error e', Event.fetchMetadata :: Event.srcPartitionCall :: es) := by
      simp [Dispatcher.run, hc, hs, hf, hconv, hpart, heq, prependE]
    have hshape : ∀ ev, ev ∈ (Dispatcher.run S W TP strat).2 →
        ev = Event.fetchMetadata ∨ ev = Event.srcPartitionCall ∨
          ∃ j, ev = Event.prepare j := by
      rw [hrun]
      intro ev hev
      rcases List.mem_cons.mp hev with rfl | hev
      · exact Or.inl rfl
      rcases List.mem_cons.mp hev with rfl | hev
      · exact Or.inr (Or.inl rfl)
      · exact Or.inr (Or.inr (hall ev hev))
    refine ⟨e', hex', by rw [hrun], ?_, ?_, ?_, ?_⟩
    · intro n hmem
      rcases hshape _ hmem with h | h | ⟨j, h⟩ <;> exact Event.noConfusion h
    · intro cnts hmem
      rcases hshape _ hmem with h | h | ⟨j, h⟩ <;> exact Event.noConfusion h
    · intro i hmem
      rcases hshape _ hmem with h | h | ⟨j, h⟩ <;> exact Event.noConfusion h
    · intro i hmem
      rcases hshape _ hmem with h | h | ⟨j, h⟩ <;> exact Event.noConfusion h

/-- Witness for C4: (1) a transport with no route for the schema column
aborts the run at schema conversion, before `partition()`; (2) a source
partition whose `prepare()` fails aborts the run before `allocate()`. -/
theorem C4_fail_fast_witness :
    (∃ e', (∃ s ∈ (mkSource [0] [sPart 1 1]).schema,
        noRouteTP.convertTypesystem s = .error e') ∧
      Dispatcher.run (mkSource [0] [sPart 1 1]) (mkDest [dPart 1 1]) noRouteTP
          Strategy.branch = (.error e', [Event.fetchMetadata]) ∧
      Event.srcPartitionCall ∉
        (Dispatcher.run (mkSource [0] [sPart 1 1]) (mkDest [dPart 1 1])
            noRouteTP Strategy.branch).2 ∧
      (∀ i r c, Event.processCell i r c ∉
        (Dispatcher.run (mkSource [0] [sPart 1 1]) (mkDest [dPart 1 1])
            noRouteTP Strategy.branch).2)) ∧
    (∃ e', (∃ p ∈ [sPartBad 1 1], p.prepareRes = .error e') ∧
      (Dispatcher.run (mkSource [0] [sPartBad 1 1]) (mkDest [dPart 1 1]) logTP
          Strategy.branch).1 = .error e' ∧
      (∀ n, Event.allocate n ∉
        (Dispatcher.run (mkSource [0] [sPartBad 1 1]) (mkDest [dPart 1 1])
            logTP Strategy.branch).2) ∧
      (∀ cnts, Event.dstPartitionCall cnts ∉
        (Dispatcher.run (mkSource [0] [sPartBad 1 1]) (mkDest [dPart 1 1])
            logTP Strategy.branch).2) ∧
      (∀ i, Event.srcParser i ∉
        (Dispatcher.run (mkSource [0] [sPartBad 1 1]) (mkDest [dPart 1 1])
            logTP Strategy.branch).2) ∧
      (∀ i, Event.dstParser i ∉
        (Dispatcher.run (mkSource [0] [sPartBad 1 1]) (mkDest [dPart 1 1])
            logTP Strategy.branch).2)) :=
  ⟨C4_fail_fast.1 Nat Nat (List Nat) (mkSource [0] [sPart 1 1])
      (mkDest [dPart 1 1]) noRouteTP Strategy.branch DataOrder.RowMajor
      rfl rfl rfl ⟨0, by simp [mkSource], CXError.unsupportedType, rfl⟩,
   C4_fail_fast.2 Nat Nat (List Nat) (mkSource [0] [sPartBad 1 1])
      (mkDest [dPart 1 1]) logTP Strategy.branch DataOrder.RowMajor [0]
      [sPartBad 1 1] rfl rfl rfl rfl rfl
      ⟨sPartBad 1 1, by simp, CXError.sourceFetch, rfl⟩⟩

/-- Claim C5: after the prepare stage, `run()` calls
`Destination::allocate` with the sum of the source partitions' `nrows()`,
then `Destination::partition` with the per-source-partition row counts in
source order, and the copy loop runs on `dst_partitions.zip_eq(src_partitions)`,
whose `i`-th pair is (destination partition `i`, source partition `i`). -/
theorem C5_allocate_sum_positional_pairing
    (σ δ π : Type) [DecidableEq δ] (S : Source σ π) (W : Destination δ π)
    (TP : Transport σ δ π) (strat : Strategy) (dorder : DataOrder)
    (dstSchema : List δ) (srcParts : List (SPartition π)) (pes : List Event)
    (dstParts : List (DPartition π))
    (hc : coordinate S.dataOrders W.dataOrders = .ok dorder)
    (hs : S.setDataOrderRes dorder = .ok ())
    (hf : S.fetchMetadataRes = .ok ())
    (hconv : collectExcept (S.schema.map TP.convertTypesystem) = .ok dstSchema)
    (hpart : S.partitionRes = .ok srcParts)
    (hprep : prepareAll srcParts 0 = (.ok (), pes))
    (halloc : W.allocateRes (srcParts.map (fun p => p.nrows)).sum S.names
        dstSchema dorder = .ok ())
    (hdp : W.partitionRes (srcParts.map (fun p => p.nrows)) = .ok dstParts)
    (hlen : dstParts.length = srcParts.length) :
    Event.allocate (srcParts.map (fun p => p.nrows)).sum ∈
      (Dispatcher.run S W TP strat).2 ∧
    Event.dstPartitionCall (srcParts.map (fun p => p.nrows)) ∈
      (Dispatcher.run S W TP strat).2 ∧
    Dispatcher.run S W TP strat =
      prependE ([Event.fetchMetadata, Event.srcPartitionCall] ++ pes ++
          [Event.allocate (srcParts.map (fun p => p.nrows)).sum,
           Event.dstPartitionCall (srcParts.map (fun p => p.nrows))])
        (copyLoop TP strat dorder S.schema dstSchema (dstParts.zip srcParts) 0) ∧
    (∀ i a b, dstParts.get? i = some a → srcParts.get? i = some b →
      (dstParts.zip srcParts).get? i = some (a, b)) := by
  have hrun : Dispatcher.run S W TP strat =
      prependE ([Event.fetchMetadata, Event.srcPartitionCall] ++ pes ++
          [Event.allocate (srcParts.map (fun p => p.nrows)).sum,
           Event.dstPartitionCall (srcParts.map (fun p => p.nrows))])
        (copyLoop TP strat dorder S.schema dstSchema (dstParts.zip srcParts) 0) := by
    simp only [Dispatcher.run, runAllocate, hc, hs, hf, hconv, hpart, hprep,
      halloc, hdp, zipEq, if_pos hlen, prependE]
    simp [List.append_assoc]
  refine ⟨?_, ?_, hrun, fun i a b ha hb => zip_get?_of_get? dstParts srcParts i a b ha hb⟩
  · rw [hrun]
    simp [prependE]
  · rw [hrun]
    simp [prependE]

/-- Witness for C5 on one 2×1 source partition: `allocate` is called with
total 2, `partition` with `[2]`, and the zip pairs index 0 with index 0. -/
theorem C5_allocate_sum_positional_pairing_witness :
    Event.allocate 2 ∈
      (Dispatcher.run (mkSource [0] [sPart 2 1]) (mkDest [dPart 2 1]) logTP
          Strategy.branch).2 ∧
    Event.dstPartitionCall [2] ∈
      (Dispatcher.run (mkSource [0] [sPart 2 1]) (mkDest [dPart 2 1]) logTP
          Strategy.branch).2 ∧
    Dispatcher.run (mkSource [0] [sPart 2 1]) (mkDest [dPart 2 1]) logTP
        Strategy.branch =
      prependE ([Event.fetchMetadata, Event.srcPartitionCall] ++
          [Event.prepare 0] ++ [Event.allocate 2, Event.dstPartitionCall [2]])
        (copyLoop logTP Strategy.branch DataOrder.RowMajor [0] [0]
          ([dPart 2 1].zip [sPart 2 1]) 0) ∧
    (∀ i a b, [dPart 2 1].get? i = some a → [sPart 2 1].get? i = some b →
      ([dPart 2 1].zip [sPart 2 1]).get? i = some (a, b)) := by
  have h := C5_allocate_sum_positional_pairing Nat Nat (List Nat)
    (mkSource [0] [sPart 2 1]) (mkDest [dPart 2 1]) logTP Strategy.branch
    DataOrder.RowMajor [0] [sPart 2 1] [Event.prepare 0] [dPart 2 1]
    rfl rfl rfl rfl rfl rfl rfl rfl rfl
  exact h

/-- Claim C6: for every source, destination and transport, the run built
with the static-branch dispatch strategy and the run built with the
function-pointer dispatch strategy produce identical output — the same
`Result`, the same call trace, and the same final cursor states. -/
theorem C6_strategy_equivalence (σ δ π : Type) [DecidableEq δ]
    (S : Source σ π) (W : Destination δ π) (TP : Transport σ δ π) :
    Dispatcher.run S W TP Strategy.branch =
      Dispatcher.run S W TP Strategy.fptr := by
  cases hc : coordinate S.dataOrders W.dataOrders with
  | error e => simp [Dispatcher.run, hc]
  | ok dorder =>
    cases hs : S.setDataOrderRes dorder with
    | error e => simp [Dispatcher.run, hc, hs]
    | ok u =>
      cases hf : S.fetchMetadataRes with
      | error e => simp [Dispatcher.run, hc, hs, hf]
      | ok u2 =>
        cases hconv : collectExcept (S.schema.map TP.convertTypesystem) with
        | error e => simp [Dispatcher.run, hc, hs, hf, hconv]
        | ok dstSchema =>
          cases hpart : S.partitionRes with
          | error e => simp [Dispatcher.run, hc, hs, hf, hconv, hpart]
          | ok srcParts =>
            cases hp : prepareAll srcParts 0 with
            | mk r es =>
              cases r with
              | error e => simp [Dispatcher.run, hc, hs, hf, hconv, hpart, hp]
              | ok u3 =>
                simp [Dispatcher.run, hc, hs, hf, hconv, hpart, hp,
                  runAllocate_strat_eq S W TP dorder dstSchema srcParts hconv]

/-- Witness for C6 at a concrete source/destination/transport. -/
theorem C6_strategy_equivalence_witness :
    Dispatcher.run (mkSource [0, 1] [sPart 2 2]) (mkDest [dPart 2 2]) logTP
        Strategy.branch =
      Dispatcher.run (mkSource [0, 1] [sPart 2 2]) (mkDest [dPart 2 2]) logTP
        Strategy.fptr :=
  C6_strategy_equivalence Nat Nat (List Nat) (mkSource [0, 1] [sPart 2 2])
    (mkDest [dPart 2 2]) logTP

end ConnectorX
